import Mathlib

/-!
Verification of the password-recovery core of `src/password.py`
(Avalon Mini 3 password recovery tool).

Python strings are modelled as `List Char` (a Python `str` is a sequence of
Unicode code points); byte strings as `List Nat` (each byte < 256 in practice).
`str.encode()` is UTF-8 encoding.  Case mappings (`str.lower`, `str.upper`,
`str.capitalize`, `str.swapcase`) are modelled on the ASCII range, which covers
every character the tool's charsets, masks and rule tables produce.

SHA-256 is embedded executably over `Nat` words reduced mod 2^32, following
FIPS 180-4; it is exercised below on the standard test vectors.
-/

set_option maxRecDepth 20000

-- ============================================================================
-- SHA-256 (executable, bytes in, bytes out)
-- ============================================================================

/-- Reduce a natural number to a 32-bit word. -/
def u32 (n : Nat) : Nat := n % 4294967296

/-- Right-rotation of a 32-bit word by `n` bits. -/
def rotr (n x : Nat) : Nat := u32 ((x >>> n) ||| (x <<< (32 - n)))

/-- Bitwise complement of a 32-bit word. -/
def bnot32 (x : Nat) : Nat := u32 (x ^^^ 4294967295)

/-- The 64 SHA-256 round constants (FIPS 180-4 §4.2.2). -/
def K256 : List Nat :=
  [1116352408, 1899447441, 3049323471, 3921009573, 961987163, 1508970993,
   2453635748, 2870763221, 3624381080, 310598401, 607225278, 1426881987,
   1925078388, 2162078206, 2614888103, 3248222580, 3835390401, 4022224774,
   264347078, 604807628, 770255983, 1249150122, 1555081692, 1996064986,
   2554220882, 2821834349, 2952996808, 3210313671, 3336571891, 3584528711,
   113926993, 338241895, 666307205, 773529912, 1294757372, 1396182291,
   1695183700, 1986661051, 2177026350, 2456956037, 2730485921, 2820302411,
   3259730800, 3345764771, 3516065817, 3600352804, 4094571909, 275423344,
   430227734, 506948616, 659060556, 883997877, 958139571, 1322822218,
   1537002063, 1747873779, 1955562222, 2024104815, 2227730452, 2361852424,
   2428436474, 2756734187, 3204031479, 3329325298]

/-- The eight 32-bit working variables of a SHA-256 computation. -/
structure Sha256State where
  a : Nat
  b : Nat
  c : Nat
  d : Nat
  e : Nat
  f : Nat
  g : Nat
  h : Nat

/-- Initial SHA-256 hash value (FIPS 180-4 §5.3.3). -/
def sha256Init : Sha256State :=
  ⟨1779033703, 3144134277, 1013904242, 2773480762, 1359893119, 2600822924, 528734635, 1541459225⟩

/-- Message-schedule function σ₀. -/
def smallSigma0 (x : Nat) : Nat := (rotr 7 x) ^^^ (rotr 18 x) ^^^ (x >>> 3)

/-- Message-schedule function σ₁. -/
def smallSigma1 (x : Nat) : Nat := (rotr 17 x) ^^^ (rotr 19 x) ^^^ (x >>> 10)

/-- Compression function Σ₀. -/
def bigSigma0 (x : Nat) : Nat := (rotr 2 x) ^^^ (rotr 13 x) ^^^ (rotr 22 x)

/-- Compression function Σ₁. -/
def bigSigma1 (x : Nat) : Nat := (rotr 6 x) ^^^ (rotr 11 x) ^^^ (rotr 25 x)

/-- Extend the 16 message words of a block to the 64-word schedule
(called with fuel 48). -/
def extendSchedule : Nat → List Nat → List Nat
  | 0, w => w
  | fuel + 1, w =>
    let n := w.length
    let next := u32 (smallSigma1 (w.getD (n - 2) 0) + w.getD (n - 7) 0 +
                     smallSigma0 (w.getD (n - 15) 0) + w.getD (n - 16) 0)
    extendSchedule fuel (w ++ [next])

/-- One SHA-256 round, consuming a (round constant, schedule word) pair. -/
def sha256Round (st : Sha256State) (kw : Nat × Nat) : Sha256State :=
  let t1 := u32 (st.h + bigSigma1 st.e + ((st.e &&& st.f) ^^^ (bnot32 st.e &&& st.g)) + kw.1 + kw.2)
  let t2 := u32 (bigSigma0 st.a + ((st.a &&& st.b) ^^^ (st.a &&& st.c) ^^^ (st.b &&& st.c)))
  ⟨u32 (t1 + t2), st.a, st.b, st.c, u32 (st.d + t1), st.e, st.f, st.g⟩

/-- Componentwise 32-bit addition of two states. -/
def addStates (x y : Sha256State) : Sha256State :=
  ⟨u32 (x.a + y.a), u32 (x.b + y.b), u32 (x.c + y.c), u32 (x.d + y.d),
   u32 (x.e + y.e), u32 (x.f + y.f), u32 (x.g + y.g), u32 (x.h + y.h)⟩

/-- Big-endian 32-bit words from a 64-byte block (called with fuel 16). -/
def blockWords : Nat → List Nat → List Nat
  | 0, _ => []
  | fuel + 1, b0 :: b1 :: b2 :: b3 :: rest =>
    u32 (b0 <<< 24 + b1 <<< 16 + b2 <<< 8 + b3) :: blockWords fuel rest
  | _ + 1, _ => []

/-- Process one 64-byte block into the running state. -/
def sha256Compress (st : Sha256State) (block : List Nat) : Sha256State :=
  let w := extendSchedule 48 (blockWords 16 block)
  addStates st ((K256.zip w).foldl sha256Round st)

/-- SHA-256 padding: a 0x80 byte, zeros to 56 mod 64, then the 64-bit
big-endian bit length. -/
def sha256Pad (msg : List Nat) : List Nat :=
  let L := msg.length
  let z := (119 - L % 64) % 64
  msg ++ [0x80] ++ List.replicate z 0 ++
    ((List.range 8).map (fun k => (8 * L) >>> (8 * (7 - k)) % 256))

/-- Split a padded message into 64-byte blocks (fuel-driven; called with
fuel = list length, which bounds the number of blocks). -/
def chunks64 : Nat → List Nat → List (List Nat)
  | 0, _ => []
  | _ + 1, [] => []
  | fuel + 1, l => l.take 64 :: chunks64 fuel (l.drop 64)

/-- Big-endian bytes of a 32-bit word. -/
def wordBytes (w : Nat) : List Nat :=
  [(w >>> 24) % 256, (w >>> 16) % 256, (w >>> 8) % 256, w % 256]

/-- SHA-256 digest (32 bytes) of a byte list. -/
def sha256 (msg : List Nat) : List Nat :=
  let padded := sha256Pad msg
  let st := (chunks64 padded.length padded).foldl sha256Compress sha256Init
  wordBytes st.a ++ wordBytes st.b ++ wordBytes st.c ++ wordBytes st.d ++
  wordBytes st.e ++ wordBytes st.f ++ wordBytes st.g ++ wordBytes st.h

/-- The sixteen lowercase hexadecimal digit characters. -/
def hexDigits : List Char := "0123456789abcdef".toList

/-- Two lowercase hex characters of a byte. -/
def byteToHex (b : Nat) : List Char := [hexDigits.getD (b / 16) '0', hexDigits.getD (b % 16) '0']

/-- Lowercase-hex digest string of a byte list, that is
`hashlib.sha256(msg).hexdigest()`. -/
def hexdigest (msg : List Nat) : List Char := (sha256 msg).flatMap byteToHex

/-- The embedded SHA-256 on the FIPS test vector for the empty message. -/
theorem hexdigest_nil :
    hexdigest [] = "e3b0c44298fc1c149afbf4c8996fb92427ae41e4649b934ca495991b7852b855".toList := by
  decide

/-- The embedded SHA-256 on the FIPS test vector for the message "abc". -/
theorem hexdigest_abc :
    hexdigest [0x61, 0x62, 0x63] =
      "ba7816bf8f01cfea414140de5dae2223b00361a396177a9cb410ff61f20015ad".toList := by
  decide

-- ============================================================================
-- Python string modelling: UTF-8 encoding and ASCII case mappings
-- ============================================================================

/-- UTF-8 encoding of a single code point, as Python `str.encode()` does. -/
def utf8EncodeChar (c : Char) : List Nat :=
  let n := c.toNat
  if n < 0x80 then [n]
  else if n < 0x800 then [0xC0 ||| (n >>> 6), 0x80 ||| (n &&& 0x3F)]
  else if n < 0x10000 then
    [0xE0 ||| (n >>> 12), 0x80 ||| ((n >>> 6) &&& 0x3F), 0x80 ||| (n &&& 0x3F)]
  else
    [0xF0 ||| (n >>> 18), 0x80 ||| ((n >>> 12) &&& 0x3F),
     0x80 ||| ((n >>> 6) &&& 0x3F), 0x80 ||| (n &&& 0x3F)]

/-- UTF-8 encoding of a string: Python `s.encode()`. -/
def utf8Encode (s : List Char) : List Nat := s.flatMap utf8EncodeChar

/-- ASCII lowercase mapping of one character (Python `str.lower`, ASCII range). -/
def py_lower_char (c : Char) : Char :=
  if 'A' ≤ c ∧ c ≤ 'Z' then Char.ofNat (c.toNat + 32) else c

/-- ASCII uppercase mapping of one character (Python `str.upper`, ASCII range). -/
def py_upper_char (c : Char) : Char :=
  if 'a' ≤ c ∧ c ≤ 'z' then Char.ofNat (c.toNat - 32) else c

/-- Python `str.lower()` (ASCII range). -/
def py_lower (s : List Char) : List Char := s.map py_lower_char

/-- Python `str.upper()` (ASCII range). -/
def py_upper (s : List Char) : List Char := s.map py_upper_char

/-- Python `str.capitalize()`: first character uppercased, the rest lowercased. -/
def py_capitalize (s : List Char) : List Char :=
  match s with
  | [] => []
  | c :: rest => py_upper_char c :: rest.map py_lower_char

/-- Python `str.swapcase()` (ASCII range). -/
def py_swapcase (s : List Char) : List Char :=
  s.map (fun c => if 'a' ≤ c ∧ c ≤ 'z' then py_upper_char c
                  else if 'A' ≤ c ∧ c ≤ 'Z' then py_lower_char c else c)

/-- Python `s.replace(a, b)` for single-character `a` and `b`. -/
def replace_char (s : List Char) (a b : Char) : List Char :=
  s.map (fun c => if c = a then b else c)

-- ============================================================================
-- Character sets and tables (src/password.py lines 31-66)
-- ============================================================================

/-- Source constant `CHARSET_LOWER`. -/
def CHARSET_LOWER : List Char := "abcdefghijklmnopqrstuvwxyz".toList

/-- Source constant `CHARSET_UPPER`. -/
def CHARSET_UPPER : List Char := "ABCDEFGHIJKLMNOPQRSTUVWXYZ".toList

/-- Source constant `CHARSET_DIGITS`. -/
def CHARSET_DIGITS : List Char := "0123456789".toList

/-- Source constant `CHARSET_SPECIAL`. -/
def CHARSET_SPECIAL : List Char := "!@#$%^&*()-_=+[]\x7b\x7d|;:,.<>?".toList

/-- Source constant `CHARSET_SPECIAL_COMMON`. -/
def CHARSET_SPECIAL_COMMON : List Char := "!@#$%&*_-+".toList

/-- Source constant `CHARSET_ALNUM`. -/
def CHARSET_ALNUM : List Char := CHARSET_LOWER ++ CHARSET_UPPER ++ CHARSET_DIGITS

/-- Source constant `CHARSET_ALL`. -/
def CHARSET_ALL : List Char := CHARSET_ALNUM ++ CHARSET_SPECIAL

/-- Source dict `MASK_CHARS`, as the lookup of the character following `?`. -/
def mask_lookup : Char → Option (List Char)
  | 'l' => some CHARSET_LOWER
  | 'u' => some CHARSET_UPPER
  | 'd' => some CHARSET_DIGITS
  | 's' => some CHARSET_SPECIAL
  | 'a' => some CHARSET_ALL
  | 'w' => some CHARSET_ALNUM
  | _ => none

/-- Source list `COMMON_SUFFIXES`. -/
def COMMON_SUFFIXES : List (List Char) :=
  ["", "!", "1", "12", "123", "1234", "12345",
   "@", "#", "$", "!@#", "!!",
   "01", "99", "00", "007", "69", "666", "777",
   "2020", "2021", "2022", "2023", "2024", "2025", "2026"].map String.toList

/-- Source dict `LEET_MAP`, in insertion order. -/
def LEET_MAP : List (Char × List Char) :=
  [('a', ['a', '4', '@']),
   ('e', ['e', '3']),
   ('i', ['i', '1', '!']),
   ('o', ['o', '0']),
   ('s', ['s', '5', '$']),
   ('t', ['t', '7']),
   ('l', ['l', '1'])]

-- ============================================================================
-- Core hash functions (src/password.py lines 73-93)
-- ============================================================================

/-- Source `compute_auth(password, dna)` (lines 73-77): the full hexdigest of
the password is computed, its first 8 characters are concatenated with the DNA
as a string, and the result is hashed and truncated to 8 hex characters. -/
def compute_auth (password dna : List Char) : List Char :=
  let webpass := hexdigest (utf8Encode password)
  let auth_input := webpass.take 8 ++ dna
  (hexdigest (utf8Encode auth_input)).take 8

/-- Source `compute_auth_fast(password, dna_bytes)` (lines 80-84): the inner
hexdigest is truncated to 8 characters first, encoded, and concatenated with
the pre-encoded DNA bytes. -/
def compute_auth_fast (password : List Char) (dna_bytes : List Nat) : List Char :=
  let webpass := (hexdigest (utf8Encode password)).take 8
  let auth_input := utf8Encode webpass ++ dna_bytes
  (hexdigest auth_input).take 8

/-- Source `check_password_batch` (lines 87-93): returns the first password in
the batch whose auth value equals the target (exact string equality), else
`None`. -/
def check_password_batch (passwords : List (List Char)) (target : List Char)
    (dna_bytes : List Nat) : Option (List Char) :=
  match passwords with
  | [] => none
  | password :: rest =>
    if compute_auth_fast password dna_bytes = target then some password
    else check_password_batch rest target dna_bytes

-- ============================================================================
-- Rule-based mutations (src/password.py lines 100-138)
-- ============================================================================

/-- The `emit` closure of `apply_rules` (lines 104-108), as a step of a fold
over (seen set, emitted list): a word is appended to the output exactly when
it is not in `seen` and has length at most 16, and is then added to `seen`. -/
def emit_step (st : List (List Char) × List (List Char)) (w : List Char) :
    List (List Char) × List (List Char) :=
  if w ∉ st.1 ∧ w.length ≤ 16 then (w :: st.1, st.2 ++ [w]) else st

/-- The single-character leet stage of `apply_rules` (lines 119-124): for each
`(char, subs)` of `LEET_MAP` in order, when `char` occurs in the lowercased
word and `subs` has more than one entry, the lowercased word with every
occurrence of `char` replaced by `subs[1]`. -/
def leet_single_stage (word : List Char) : List (List Char) :=
  let leet := py_lower word
  LEET_MAP.filterMap (fun p =>
    if p.1 ∈ leet ∧ 1 < p.2.length then some (replace_char leet p.1 (p.2.getD 1 p.1))
    else none)

/-- The full-leet stage of `apply_rules` (lines 126-132): every `LEET_MAP`
substitution with more than one entry applied in order to the lowercased word. -/
def full_leet (word : List Char) : List Char :=
  LEET_MAP.foldl
    (fun acc p => if 1 < p.2.length then replace_char acc p.1 (p.2.getD 1 p.1) else acc)
    (py_lower word)

/-- The candidate words `apply_rules` feeds through `emit`, in source order
(lines 110-138): the original word; the four case variants; the
single-character leet variants; the full-leet form; then each common suffix
appended to the lowercase and capitalized bases. -/
def rule_candidates (word : List Char) : List (List Char) :=
  [word] ++
  [py_lower word, py_upper word, py_capitalize word, py_swapcase word] ++
  leet_single_stage word ++
  [full_leet word] ++
  ([py_lower word, py_capitalize word].flatMap
    (fun base => COMMON_SUFFIXES.map (fun suffix => base ++ suffix)))

/-- Source `apply_rules(word)` (lines 100-138): the sequence of yielded
mutations, that is the candidates in order, deduplicated and length-capped by
`emit`. -/
def apply_rules (word : List Char) : List (List Char) :=
  ((rule_candidates word).foldl emit_step ([], [])).2

-- ============================================================================
-- Pattern generators and keyspace counts (src/password.py lines 145-213)
-- ============================================================================

/-- Python `itertools.product` over a list of character classes: the Cartesian
product in odometer order, the last position varying fastest. -/
def pyProduct : List (List Char) → List (List Char)
  | [] => [[]]
  | cs :: rest => cs.flatMap (fun c => (pyProduct rest).map (fun t => c :: t))

/-- Python `itertools.product(cs, repeat := n)`. -/
def pyProductRep (cs : List Char) (n : Nat) : List (List Char) :=
  pyProduct (List.replicate n cs)

/-- The mask tokenizer of `generate_mask_candidates` (lines 157-167): a `?`
followed by a recognized class key consumes two characters and contributes the
class; any other character contributes itself as a one-character class. -/
def parse_mask : List Char → List (List Char)
  | [] => []
  | '?' :: c :: rest =>
    match mask_lookup c with
    | some cs => cs :: parse_mask rest
    | none => ['?'] :: parse_mask (c :: rest)
  | c :: rest => [c] :: parse_mask rest

/-- Source `generate_mask_candidates(mask)` (lines 145-170). -/
def generate_mask_candidates (mask : List Char) : List (List Char) :=
  pyProduct (parse_mask mask)

/-- The suffix alphabet of the hybrid attack (line 175): digits then the
common specials, 20 characters. -/
def suffix_chars : List Char := CHARSET_DIGITS ++ CHARSET_SPECIAL_COMMON

/-- Source `generate_hybrid(words, suffix_len)` (lines 173-183): each word
alone, then for suffix length 1..suffix_len every word+suffix in odometer
order, keeping only candidates of length at most 16. -/
def generate_hybrid (words : List (List Char)) (suffix_len : Nat) : List (List Char) :=
  words.flatMap (fun word =>
    word :: (List.range' 1 suffix_len).flatMap (fun len =>
      ((pyProductRep suffix_chars len).map (fun suffix => word ++ suffix)).filter
        (fun candidate => candidate.length ≤ 16)))

/-- Source `generate_bruteforce(charset, max_len, min_len)` (lines 186-190). -/
def generate_bruteforce (charset : List Char) (max_len : Nat) (min_len : Nat := 1) :
    List (List Char) :=
  (List.range' min_len (max_len + 1 - min_len)).flatMap (fun len => pyProductRep charset len)

/-- Source `count_combinations(charset, max_len, min_len)` (lines 193-198). -/
def count_combinations (charset : List Char) (max_len : Nat) (min_len : Nat := 1) : Nat :=
  ((List.range' min_len (max_len + 1 - min_len)).map (fun len => charset.length ^ len)).sum

/-- Source `count_mask_combinations(mask)` (lines 201-213): the product of the
recognized class sizes; literal positions contribute nothing. -/
def count_mask_combinations : List Char → Nat
  | [] => 1
  | '?' :: c :: rest =>
    match mask_lookup c with
    | some cs => cs.length * count_mask_combinations rest
    | none => count_mask_combinations (c :: rest)
  | _ :: rest => count_mask_combinations rest

/-- The per-word suffix keyspace computed by `crack_hybrid` (lines 430-431):
`sum(suffix_chars ** length for length in range(suffix_len + 1))` with
`suffix_chars = len(CHARSET_DIGITS + CHARSET_SPECIAL_COMMON)`. -/
def crack_hybrid_suffix_combos (suffix_len : Nat) : Nat :=
  ((List.range (suffix_len + 1)).map (fun len => suffix_chars.length ^ len)).sum

/-- The total keyspace computed by `crack_hybrid` (line 432). -/
def crack_hybrid_total (words : List (List Char)) (suffix_len : Nat) : Nat :=
  words.length * crack_hybrid_suffix_combos suffix_len

-- ============================================================================
-- Engine outcome and exit status (src/password.py lines 273-366, 592-601)
-- ============================================================================

/-- How a `crack_generator` run ends: a user interrupt (`KeyboardInterrupt`,
line 350), or completion of the search with an optional found password. -/
inductive SearchEvent where
  | interrupted : SearchEvent
  | completed : Option (List Char) → SearchEvent

/-- The value `crack_generator` returns for each way the run can end
(lines 350-366): `None` on interrupt (line 353), the found password on a
match (line 362), `None` on exhaustion (line 366). -/
def crack_generator_result : SearchEvent → Option (List Char)
  | .interrupted => none
  | .completed found => found

/-- The process exit status `main` produces from the engine result
(lines 592-601): 0 when a password was found, 1 otherwise. -/
def main_exit_code (result : Option (List Char)) : Nat :=
  match result with
  | some _ => 0
  | none => 1

-- ============================================================================
-- Spec-side definitions (for the refinement claims)
-- ============================================================================

/-- The oracle target value as the spec words it (spec §4.1): the first 8 hex
characters of SHA256 of (the bytes of the first 8 hex characters of the hex of
SHA256 of the password, concatenated with the salt bytes). -/
def spec_outer8 (p : List Char) (s : List Nat) : List Char :=
  (hexdigest (utf8Encode ((hexdigest (utf8Encode p)).take 8) ++ s)).take 8

/-- Case-insensitive string comparison, as the spec's "case-insensitive
compare" of outer hash against target. -/
def eq_case_insensitive (s t : List Char) : Prop := py_lower s = py_lower t

instance (s t : List Char) : Decidable (eq_case_insensitive s t) := by
  unfold eq_case_insensitive; infer_instance

/-- The leet table exactly as the spec writes it (spec §4.2: a→4, e→3, i→1,
o→0, s→$, t→7, l→1), as substitution pairs. -/
def spec_leet_pairs : List (Char × Char) :=
  [('a', '4'), ('e', '3'), ('i', '1'), ('o', '0'), ('s', '$'), ('t', '7'), ('l', '1')]

/-- The leet table the code actually applies (`subs[1]` of each `LEET_MAP`
entry): a→4, e→3, i→1, o→0, s→5, t→7, l→1. -/
def code_leet_pairs : List (Char × Char) :=
  [('a', '4'), ('e', '3'), ('i', '1'), ('o', '0'), ('s', '5'), ('t', '7'), ('l', '1')]

/-- Mixed-radix decoding of an index into the Cartesian product of character
classes, the last position varying fastest: the mathematical statement of
odometer order. -/
def decodeMixed : List (List Char) → Nat → List Char
  | [], _ => []
  | cs :: rest, i =>
    let w := ((rest.map List.length).prod)
    cs.getD (i / w) '?' :: decodeMixed rest (i % w)

-- ============================================================================
-- General lemmas about the product generator
-- ============================================================================

/-- The number of tuples in the Cartesian product is the product of the class
sizes. -/
theorem pyProduct_length (css : List (List Char)) :
    (pyProduct css).length = (css.map List.length).prod := by
  induction css with
  | nil => rfl
  | cons cs rest ih =>
    simp [pyProduct, List.length_flatMap, Function.comp_def, ih, List.map_const',
      List.sum_replicate, smul_eq_mul]

/-- Membership in the Cartesian product is positionwise membership in the
classes. -/
theorem pyProduct_mem (css : List (List Char)) (s : List Char) :
    s ∈ pyProduct css ↔ List.Forall₂ (fun c cs => c ∈ cs) s css := by
  induction css generalizing s with
  | nil =>
    simp [pyProduct, List.forall₂_nil_right_iff]
  | cons cs rest ih =>
    simp only [pyProduct, List.mem_flatMap, List.mem_map, List.forall₂_cons_right_iff]
    constructor
    · rintro ⟨c, hc, t, ht, rfl⟩
      exact ⟨c, t, hc, (ih t).mp ht, rfl⟩
    · rintro ⟨c, t, hc, ht, rfl⟩
      exact ⟨c, hc, t, (ih t).mpr ht, rfl⟩

/-- The Cartesian product of duplicate-free classes is duplicate-free. -/
theorem pyProduct_nodup (css : List (List Char)) (h : ∀ cs ∈ css, cs.Nodup) :
    (pyProduct css).Nodup := by
  induction css with
  | nil => simp [pyProduct]
  | cons cs rest ih =>
    rw [pyProduct, List.nodup_flatMap]
    refine ⟨fun c _ => ?_, ?_⟩
    · apply List.Nodup.map
      · intro t1 t2 ht
        simpa using ht
      · exact ih (fun x hx => h x (List.mem_cons_of_mem _ hx))
    · have hcs : cs.Nodup := h cs (List.mem_cons_self _ _)
      refine hcs.imp ?_
      intro c1 c2 hne
      intro x hx1 hx2
      simp only [Function.onFun, List.mem_map] at hx1 hx2
      obtain ⟨t1, _, rfl⟩ := hx1
      obtain ⟨t2, _, heq⟩ := hx2
      have heq' : c2 = c1 ∧ t2 = t1 := by simpa using heq
      exact hne heq'.1.symm

/-- Concatenating the blocks of a constant-width enumeration is enumeration of
the combined index range, the block index weighted by the width. -/
theorem flatMap_range_decode {α β : Type} (cs : List β) (w : Nat) (d : β) (f : β → Nat → α) :
    cs.flatMap (fun c => (List.range w).map (f c)) =
    (List.range (cs.length * w)).map (fun i => f (cs.getD (i / w) d) (i % w)) := by
  induction cs with
  | nil => simp
  | cons c cs ih =>
    rcases Nat.eq_zero_or_pos w with hw | hw
    · subst hw
      simp
    · have hlen : (c :: cs).length * w = w + cs.length * w := by
        simp [List.length_cons, Nat.succ_mul, Nat.add_comm]
      rw [hlen, List.range_add, List.map_append, List.flatMap_cons]
      congr 1
      · apply List.map_congr_left
        intro i hi
        have hi' : i < w := List.mem_range.mp hi
        rw [Nat.div_eq_of_lt hi', Nat.mod_eq_of_lt hi']
        rfl
      · rw [ih, List.map_map]
        apply List.map_congr_left
        intro j _
        have h1 : (w + j) / w = j / w + 1 := by
          rw [Nat.add_comm w j, Nat.add_div_right _ hw]
        have h2 : (w + j) % w = j % w := Nat.add_mod_left w j
        simp [Function.comp_def, h1, h2]

/-- The Cartesian product in odometer order is exactly mixed-radix decoding of
an initial segment of the naturals: candidate `i` decodes `i` with the last
position varying fastest. -/
theorem pyProduct_eq_decode (css : List (List Char)) :
    pyProduct css = (List.range (css.map List.length).prod).map (decodeMixed css) := by
  induction css with
  | nil => rfl
  | cons cs rest ih =>
    rw [pyProduct, ih]
    have : cs.flatMap (fun c => ((List.range ((rest.map List.length).prod)).map
        (decodeMixed rest)).map (fun t => c :: t)) =
        cs.flatMap (fun c => (List.range ((rest.map List.length).prod)).map
        (fun j => c :: decodeMixed rest j)) := by
      simp [List.map_map, Function.comp_def]
    rw [this, flatMap_range_decode cs _ '?']
    simp only [List.map_cons, List.prod_cons]
    apply List.map_congr_left
    intro i _
    rfl

/-- Tuples in the product of `n` copies of a class have length `n`. -/
theorem pyProductRep_mem_length (cs : List Char) (n : Nat) (s : List Char)
    (h : s ∈ pyProductRep cs n) : s.length = n := by
  have := ((pyProduct_mem _ s).mp h).length_eq
  simpa using this

/-- The product of `n` copies of a class has `size ^ n` tuples. -/
theorem pyProductRep_length (cs : List Char) (n : Nat) :
    (pyProductRep cs n).length = cs.length ^ n := by
  rw [pyProductRep, pyProduct_length, List.map_replicate, List.prod_replicate]

-- ============================================================================
-- General lemmas about the emit fold of apply_rules
-- ============================================================================

/-- The fold underlying `apply_rules` preserves: the emitted list is
duplicate-free, every emitted word is in the seen set, and every emitted word
has length at most 16. -/
theorem emit_fold_invariant (cands : List (List Char))
    (st : List (List Char) × List (List Char))
    (h1 : st.2.Nodup) (h2 : ∀ x ∈ st.2, x ∈ st.1) (h3 : ∀ x ∈ st.2, x.length ≤ 16) :
    (cands.foldl emit_step st).2.Nodup ∧
      (∀ x ∈ (cands.foldl emit_step st).2, x ∈ (cands.foldl emit_step st).1) ∧
      (∀ x ∈ (cands.foldl emit_step st).2, x.length ≤ 16) := by
  induction cands generalizing st with
  | nil => exact ⟨h1, h2, h3⟩
  | cons w rest ih =>
    simp only [List.foldl_cons]
    unfold emit_step
    split
    next hc =>
      apply ih
      · rw [List.nodup_append]
        exact ⟨h1, List.nodup_singleton w,
          fun x hx hx' => hc.1 ((List.mem_singleton.mp hx') ▸ h2 x hx)⟩
      · intro x hx
        rcases List.mem_append.mp hx with hx | hx
        · exact List.mem_cons_of_mem _ (h2 x hx)
        · rw [List.mem_singleton.mp hx]; exact List.mem_cons_self _ _
      · intro x hx
        rcases List.mem_append.mp hx with hx | hx
        · exact h3 x hx
        · rw [List.mem_singleton.mp hx]; exact hc.2
    next => exact ih st h1 h2 h3

/-- Every word `apply_rules` yields is yielded once. -/
theorem apply_rules_nodup (word : List Char) : (apply_rules word).Nodup :=
  (emit_fold_invariant (rule_candidates word) ([], [])
    List.nodup_nil (by simp) (by simp)).1

/-- Every word `apply_rules` yields has length at most 16. -/
theorem apply_rules_length_le (word : List Char) :
    ∀ s ∈ apply_rules word, s.length ≤ 16 :=
  (emit_fold_invariant (rule_candidates word) ([], [])
    List.nodup_nil (by simp) (by simp)).2.2

-- ============================================================================
-- Counting lemmas
-- ============================================================================

/-- A sum over `range' a n` is a sum over the first `n` naturals shifted by
`a`. -/
theorem sum_map_range' (f : Nat → Nat) (a n : Nat) :
    ((List.range' a n).map f).sum = ∑ i ∈ Finset.range n, f (a + i) := by
  induction n generalizing a with
  | zero => simp
  | succ n ih =>
    rw [List.range'_succ, List.map_cons, List.sum_cons, ih (a + 1),
      Finset.sum_range_succ']
    have hsh : ∀ i : Nat, a + 1 + i = a + (i + 1) := by omega
    simp only [hsh, Nat.add_zero]
    exact Nat.add_comm _ _

/-- The brute-force generator yields exactly `count_combinations` candidates:
one for every string of each length from `min_len` to `max_len` over the
charset. -/
theorem generate_bruteforce_length (charset : List Char) (max_len min_len : Nat) :
    (generate_bruteforce charset max_len min_len).length =
      count_combinations charset max_len min_len := by
  rw [generate_bruteforce, count_combinations, List.length_flatMap]
  congr 1
  apply List.map_congr_left
  intro len _
  simp [Function.comp_def, pyProductRep_length]

/-- `count_combinations` is the sum of the powers of the charset size over the
length interval. -/
theorem count_combinations_eq_sum_Icc (charset : List Char) (max_len min_len : Nat) :
    count_combinations charset max_len min_len =
      ∑ L ∈ Finset.Icc min_len max_len, charset.length ^ L := by
  rw [count_combinations, sum_map_range', ← Nat.Ico_succ_right,
    Finset.sum_Ico_eq_sum_range]

/-- Summing powers over lengths 1..N and adding 1 for the bare word gives the
sum of powers over lengths 0..N. -/
theorem sum_pow_range'_succ (b N : Nat) :
    ((List.range' 1 N).map (fun len => b ^ len)).sum + 1 =
      ((List.range (N + 1)).map (fun len => b ^ len)).sum := by
  induction N with
  | zero => simp [List.range_succ]
  | succ N ih =>
    rw [List.range'_concat, List.range_succ, List.map_append, List.map_append,
      List.sum_append, List.sum_append]
    simp only [List.map_cons, List.map_nil, List.sum_cons, List.sum_nil]
    have hexp : 1 + 1 * N = N + 1 := by omega
    rw [hexp, ← ih]
    ring

/-- With a single word short enough that no suffixed candidate is filtered,
the hybrid generator yields exactly the keyspace `crack_hybrid` computes. -/
theorem generate_hybrid_single_length (w : List Char) (N : Nat)
    (h : w.length + N ≤ 16) :
    (generate_hybrid [w] N).length = crack_hybrid_total [w] N := by
  rw [generate_hybrid, crack_hybrid_total, crack_hybrid_suffix_combos]
  simp only [List.flatMap_cons, List.flatMap_nil, List.append_nil, List.length_cons,
    List.length_flatMap, List.length_nil, Function.comp_def]
  have hblock : ∀ len ∈ List.range' 1 N,
      (((pyProductRep suffix_chars len).map (fun suffix => w ++ suffix)).filter
        (fun candidate => candidate.length ≤ 16)).length = suffix_chars.length ^ len := by
    intro len hlen
    have hlenN : len ≤ N := by
      obtain ⟨i, hi, rfl⟩ := List.mem_range'.mp hlen
      omega
    have hfilter : (((pyProductRep suffix_chars len).map (fun suffix => w ++ suffix)).filter
        (fun candidate => candidate.length ≤ 16)) =
        ((pyProductRep suffix_chars len).map (fun suffix => w ++ suffix)) := by
      rw [List.filter_eq_self]
      intro a ha
      obtain ⟨suffix, hs, rfl⟩ := List.mem_map.mp ha
      have hsl := pyProductRep_mem_length _ _ _ hs
      simp only [List.length_append, hsl, decide_eq_true_eq]
      omega
    rw [hfilter, List.length_map, pyProductRep_length]
  rw [List.map_congr_left hblock, Nat.zero_add, Nat.one_mul]
  exact sum_pow_range'_succ suffix_chars.length N

-- ============================================================================
-- Shape of the oracle output
-- ============================================================================

/-- Any index into the hex digit table, in range or not, lands in the table
(the default is itself a hex digit). -/
theorem hexDigits_getD_mem (n : Nat) : hexDigits.getD n '0' ∈ hexDigits := by
  rcases Nat.lt_or_ge n hexDigits.length with h | h
  · rw [List.getD_eq_getElem _ _ h]
    exact List.getElem_mem h
  · rw [List.getD_eq_default _ _ h]
    decide

/-- A SHA-256 digest is 32 bytes long. -/
theorem sha256_length (msg : List Nat) : (sha256 msg).length = 32 := by
  simp [sha256, wordBytes]

/-- A SHA-256 hexdigest is 64 characters long. -/
theorem hexdigest_length (msg : List Nat) : (hexdigest msg).length = 64 := by
  rw [hexdigest, List.length_flatMap]
  have h2 : (sha256 msg).map (List.length ∘ byteToHex) =
      (sha256 msg).map (fun x => 2) := List.map_congr_left (fun b _ => rfl)
  rw [h2, List.map_const', List.sum_replicate, sha256_length]
  decide

/-- Every character of a SHA-256 hexdigest is a lowercase hex digit. -/
theorem mem_hexdigest_hex (msg : List Nat) : ∀ c ∈ hexdigest msg, c ∈ hexDigits := by
  intro c hc
  rw [hexdigest, List.mem_flatMap] at hc
  obtain ⟨b, _, hb⟩ := hc
  simp only [byteToHex, List.mem_cons, List.not_mem_nil, or_false] at hb
  rcases hb with rfl | rfl
  · exact hexDigits_getD_mem _
  · exact hexDigits_getD_mem _

/-- The fast oracle always returns exactly 8 lowercase hex characters. -/
theorem compute_auth_fast_shape (p : List Char) (s : List Nat) :
    (compute_auth_fast p s).length = 8 ∧ ∀ c ∈ compute_auth_fast p s, c ∈ hexDigits := by
  constructor
  · simp [compute_auth_fast, List.length_take, hexdigest_length]
  · intro c hc
    exact mem_hexdigest_hex _ c (List.take_subset _ _ hc)

/-- When the batch check reports a password, the target is that password's
auth value. -/
theorem check_password_batch_eq (ps : List (List Char)) (t : List Char) (s : List Nat)
    (p : List Char) (h : check_password_batch ps t s = some p) :
    t = compute_auth_fast p s := by
  induction ps with
  | nil => simp [check_password_batch] at h
  | cons q rest ih =>
    rw [check_password_batch] at h
    split at h
    next heq =>
      injection h with h'
      rw [← h']
      exact heq.symm
    next => exact ih h

-- ============================================================================
-- Claims
-- ============================================================================

/-- C1 (counterexample): the oracle check is NOT equivalent to a
case-insensitive comparison with the target.  For password "a" and the empty
salt the spec construction equals the uppercase target "151A90BC" under
case-insensitive comparison, yet `compute_auth_fast` (which emits lowercase
hex and is compared with exact string equality by `check_password_batch`)
reports no match. -/
theorem C1_counterexample :
    eq_case_insensitive (spec_outer8 "a".toList []) "151A90BC".toList ∧
    compute_auth_fast "a".toList [] ≠ "151A90BC".toList ∧
    check_password_batch ["a".toList] "151A90BC".toList [] = none := by
  refine ⟨by decide, by decide, by decide⟩

/-- C1 (amended): the per-candidate oracle check of `check_password_batch`
succeeds if and only if the first 8 hex characters of
SHA256(first-8-hex-of-SHA256(p) encoded ‖ salt) equal the target under EXACT
(case-sensitive) string comparison — equivalently, case-insensitive comparison
restricted to lowercase targets, since the computed value is always lowercase
hex. -/
theorem C1_theorem : ∀ (p : List Char) (s : List Nat) (t : List Char),
    (compute_auth_fast p s = t ↔ spec_outer8 p s = t) ∧
    (check_password_batch [p] t s = some p ↔ spec_outer8 p s = t) := by
  intro p s t
  have hfast : compute_auth_fast p s = spec_outer8 p s := rfl
  refine ⟨by rw [hfast], ?_⟩
  rw [check_password_batch, check_password_batch]
  split
  next heq => simp [← heq, hfast]
  next hne =>
    have hs : spec_outer8 p s ≠ t := fun h => hne (hfast.trans h)
    simp [hs]

/-- C2: the slow and fast oracle agree — `compute_auth(p, dna)` equals
`compute_auth_fast(p, dna.encode())` — and the round trip
`check_password_batch([p], compute_auth(p, dna), dna.encode())` returns `p`. -/
theorem C2_theorem : ∀ (p dna : List Char),
    compute_auth p dna = compute_auth_fast p (utf8Encode dna) ∧
    check_password_batch [p] (compute_auth p dna) (utf8Encode dna) = some p := by
  intro p dna
  have henc : compute_auth p dna = compute_auth_fast p (utf8Encode dna) := by
    simp [compute_auth, compute_auth_fast, utf8Encode, List.flatMap_append]
  refine ⟨henc, ?_⟩
  rw [check_password_batch, if_pos henc.symm]

/-- C3 (counterexample): interruption is NOT distinguishable from exhaustion:
`crack_generator` returns `None` in both cases (lines 353 and 366), and `main`
maps both to exit status 1 (line 601). -/
theorem C3_counterexample :
    crack_generator_result SearchEvent.interrupted =
      crack_generator_result (SearchEvent.completed none) ∧
    main_exit_code (crack_generator_result SearchEvent.interrupted) = 1 ∧
    main_exit_code (crack_generator_result (SearchEvent.completed none)) = 1 :=
  ⟨rfl, rfl, rfl⟩

/-- C3 (amended): the engine returns `None` both on user interruption and on
exhaustion, and `main` exits with status 1 in both cases, so the caller cannot
distinguish interruption from exhaustion; only success (a found password,
exit status 0) is distinguished from both. -/
theorem C3_theorem :
    crack_generator_result SearchEvent.interrupted = none ∧
    crack_generator_result (SearchEvent.completed none) = none ∧
    main_exit_code (crack_generator_result SearchEvent.interrupted) =
      main_exit_code (crack_generator_result (SearchEvent.completed none)) ∧
    (∀ e, main_exit_code (crack_generator_result e) = 0 ↔
      ∃ p, e = SearchEvent.completed (some p)) := by
  refine ⟨rfl, rfl, rfl, ?_⟩
  intro e
  cases e with
  | interrupted => simp [crack_generator_result, main_exit_code]
  | completed f =>
    cases f with
    | none => simp [crack_generator_result, main_exit_code]
    | some p => simp [crack_generator_result, main_exit_code]

/-- C4: the mask "?d?d?l" expands to exactly 10·10·26 = 2600 candidates,
pairwise distinct, each a digit, a digit and a lowercase letter in that order,
enumerated in odometer order with the last position varying fastest (the i-th
candidate is the mixed-radix decoding of i), the first three being "00a",
"00b", "00c". -/
theorem C4_theorem :
    (generate_mask_candidates "?d?d?l".toList).length = 2600 ∧
    (generate_mask_candidates "?d?d?l".toList).Nodup ∧
    (∀ s ∈ generate_mask_candidates "?d?d?l".toList,
      ∃ d1 ∈ CHARSET_DIGITS, ∃ d2 ∈ CHARSET_DIGITS, ∃ c ∈ CHARSET_LOWER, s = [d1, d2, c]) ∧
    generate_mask_candidates "?d?d?l".toList =
      (List.range 2600).map (decodeMixed [CHARSET_DIGITS, CHARSET_DIGITS, CHARSET_LOWER]) ∧
    (generate_mask_candidates "?d?d?l".toList).take 3 =
      [['0','0','a'], ['0','0','b'], ['0','0','c']] := by
  have hparse : parse_mask "?d?d?l".toList =
      [CHARSET_DIGITS, CHARSET_DIGITS, CHARSET_LOWER] := by decide
  have hM : generate_mask_candidates "?d?d?l".toList =
      pyProduct [CHARSET_DIGITS, CHARSET_DIGITS, CHARSET_LOWER] := by
    rw [generate_mask_candidates, hparse]
  have hprod : (([CHARSET_DIGITS, CHARSET_DIGITS, CHARSET_LOWER]).map List.length).prod =
      2600 := by decide
  have hdec : generate_mask_candidates "?d?d?l".toList =
      (List.range 2600).map (decodeMixed [CHARSET_DIGITS, CHARSET_DIGITS, CHARSET_LOWER]) := by
    rw [hM, pyProduct_eq_decode, hprod]
  refine ⟨?_, ?_, ?_, hdec, ?_⟩
  · rw [hM, pyProduct_length, hprod]
  · rw [hM]
    exact pyProduct_nodup _ (by decide)
  · intro s hs
    rw [hM] at hs
    have hf := (pyProduct_mem _ s).mp hs
    obtain ⟨d1, s1, hd1, h1, rfl⟩ := List.forall₂_cons_right_iff.mp hf
    obtain ⟨d2, s2, hd2, h2, rfl⟩ := List.forall₂_cons_right_iff.mp h1
    obtain ⟨c3, s3, hc3, h3, rfl⟩ := List.forall₂_cons_right_iff.mp h2
    rw [List.forall₂_nil_right_iff.mp h3]
    exact ⟨d1, hd1, d2, hd2, c3, hc3, rfl⟩
  · rw [hdec, ← List.map_take, List.take_range]
    decide

/-- C4 (witness): the first candidate "00a" is in the expansion and has the
claimed digit-digit-letter shape. -/
theorem C4_witness :
    ∃ d1 ∈ CHARSET_DIGITS, ∃ d2 ∈ CHARSET_DIGITS, ∃ c ∈ CHARSET_LOWER,
      (['0','0','a'] : List Char) = [d1, d2, c] :=
  C4_theorem.2.2.1 ['0','0','a'] (by rw [C4_theorem.2.2.2.1]; decide)

/-- C5 (counterexample): `apply_rules("Pass")` never yields "ssaP" — Python
`swapcase` turns "Pass" into "pASS", not into the reversal "ssaP". -/
theorem C5_counterexample : "ssaP".toList ∉ apply_rules "Pass".toList := by
  decide

/-- C5 (amended): `apply_rules("Pass")` yields "pass", "PASS", "Pass", "pASS"
(the swapcase variant) and "pass123"; and for every input word the yielded
strings are pairwise distinct and of length at most 16. -/
theorem C5_theorem :
    ("pass".toList ∈ apply_rules "Pass".toList ∧
     "PASS".toList ∈ apply_rules "Pass".toList ∧
     "Pass".toList ∈ apply_rules "Pass".toList ∧
     "pASS".toList ∈ apply_rules "Pass".toList ∧
     "pass123".toList ∈ apply_rules "Pass".toList) ∧
    (∀ word, (apply_rules word).Nodup) ∧
    (∀ word, ∀ s ∈ apply_rules word, s.length ≤ 16) :=
  ⟨by decide, apply_rules_nodup, apply_rules_length_le⟩

/-- C5 (witness): the length bound applied to the concrete output "pass" of
`apply_rules("Pass")`. -/
theorem C5_witness : ("pass".toList).length ≤ 16 :=
  C5_theorem.2.2 "Pass".toList "pass".toList (by decide)

/-- C6 (counterexample): the spec's table maps s→$ but the code substitutes
`subs[1]` = '5' for 's': on the word "s" the single-character leet stage
yields exactly ["5"], and the spec's substitution result "$" is not among the
yields. -/
theorem C6_counterexample :
    ('s', '$') ∈ spec_leet_pairs ∧
    's' ∈ py_lower "s".toList ∧
    leet_single_stage "s".toList = [['5']] ∧
    replace_char (py_lower "s".toList) 's' '$' ∉ leet_single_stage "s".toList := by
  refine ⟨by decide, by decide, by decide, by decide⟩

/-- C6 (amended): for every word `w` and every letter `c` of the table
a→4, e→3, i→1, o→0, s→5, t→7, l→1 that occurs in lowercase(w), the
single-character leet stage of `apply_rules` yields lowercase(w) with every
occurrence of `c` replaced by the table entry (in particular 's' is replaced
by '5', not by '$'). -/
theorem C6_theorem : ∀ (w : List Char) (c r : Char),
    (c, r) ∈ code_leet_pairs → c ∈ py_lower w →
    replace_char (py_lower w) c r ∈ leet_single_stage w := by
  intro w c r hcr hocc
  have hcases : (c = 'a' ∧ r = '4') ∨ (c = 'e' ∧ r = '3') ∨ (c = 'i' ∧ r = '1') ∨
      (c = 'o' ∧ r = '0') ∨ (c = 's' ∧ r = '5') ∨ (c = 't' ∧ r = '7') ∨
      (c = 'l' ∧ r = '1') := by
    simpa [code_leet_pairs] using hcr
  rw [leet_single_stage]
  rcases hcases with h | h | h | h | h | h | h <;> obtain ⟨rfl, rfl⟩ := h
  · exact List.mem_filterMap.mpr ⟨('a', ['a', '4', '@']), by decide,
      by rw [if_pos ⟨hocc, by decide⟩]; rfl⟩
  · exact List.mem_filterMap.mpr ⟨('e', ['e', '3']), by decide,
      by rw [if_pos ⟨hocc, by decide⟩]; rfl⟩
  · exact List.mem_filterMap.mpr ⟨('i', ['i', '1', '!']), by decide,
      by rw [if_pos ⟨hocc, by decide⟩]; rfl⟩
  · exact List.mem_filterMap.mpr ⟨('o', ['o', '0']), by decide,
      by rw [if_pos ⟨hocc, by decide⟩]; rfl⟩
  · exact List.mem_filterMap.mpr ⟨('s', ['s', '5', '$']), by decide,
      by rw [if_pos ⟨hocc, by decide⟩]; rfl⟩
  · exact List.mem_filterMap.mpr ⟨('t', ['t', '7']), by decide,
      by rw [if_pos ⟨hocc, by decide⟩]; rfl⟩
  · exact List.mem_filterMap.mpr ⟨('l', ['l', '1']), by decide,
      by rw [if_pos ⟨hocc, by decide⟩]; rfl⟩

/-- C6 (witness): the code-table substitution s→5 on "pass" yields "pa55"
within the leet stage. -/
theorem C6_witness :
    replace_char (py_lower "pass".toList) 's' '5' ∈ leet_single_stage "pass".toList :=
  C6_theorem "pass".toList 's' '5' (by decide) (by decide)

/-- C7: with the single word "test" and suffix length 2 over the 20-character
suffix alphabet, the hybrid generator yields exactly 1 + 20 + 400 = 421
candidates — "test" first, then all length-1 then length-2 suffixed forms in
odometer order — all of length at most 16; and for every word `w` with
`len(w) + N ≤ 16` it yields exactly `sum of 20^k for k = 0..N` candidates,
the keyspace total `crack_hybrid` computes. -/
theorem C7_theorem :
    (generate_hybrid ["test".toList] 2).length = 421 ∧
    generate_hybrid ["test".toList] 2 =
      "test".toList ::
        ((List.range 20).map (fun i => "test".toList ++ decodeMixed [suffix_chars] i) ++
         (List.range 400).map
           (fun i => "test".toList ++ decodeMixed [suffix_chars, suffix_chars] i)) ∧
    (∀ s ∈ generate_hybrid ["test".toList] 2, s.length ≤ 16) ∧
    (∀ (w : List Char) (N : Nat), w.length + N ≤ 16 →
      (generate_hybrid [w] N).length = crack_hybrid_total [w] N ∧
      crack_hybrid_total [w] N =
        ((List.range (N + 1)).map (fun k => suffix_chars.length ^ k)).sum) := by
  refine ⟨by decide, by decide, by decide, ?_⟩
  intro w N h
  refine ⟨generate_hybrid_single_length w N h, ?_⟩
  simp [crack_hybrid_total, crack_hybrid_suffix_combos]

/-- C7 (witness): the keyspace identity applied to the word "ab" with suffix
length 1: the generator yields exactly the 21 candidates crack_hybrid
counts. -/
theorem C7_witness :
    (generate_hybrid ["ab".toList] 1).length = crack_hybrid_total ["ab".toList] 1 :=
  (C7_theorem.2.2.2 "ab".toList 1 (by decide)).1

/-- C8: `count_mask_combinations("?d?d?l?l")` is 10·10·26·26 = 67600,
`count_combinations("abc", 2, 1)` is 3 + 9 = 12, and for every charset and
every `min_len ≤ max_len` the brute-force generator yields exactly
`count_combinations` candidates, the sum over L of |charset|^L. -/
theorem C8_theorem :
    count_mask_combinations "?d?d?l?l".toList = 67600 ∧
    count_combinations "abc".toList 2 1 = 12 ∧
    (∀ (charset : List Char) (max_len min_len : Nat), min_len ≤ max_len →
      (generate_bruteforce charset max_len min_len).length =
        count_combinations charset max_len min_len ∧
      count_combinations charset max_len min_len =
        ∑ L ∈ Finset.Icc min_len max_len, charset.length ^ L) := by
  refine ⟨by decide, by decide, ?_⟩
  intro charset max_len min_len _
  exact ⟨generate_bruteforce_length charset max_len min_len,
    count_combinations_eq_sum_Icc charset max_len min_len⟩

/-- C8 (witness): the keyspace identity at charset "ab", lengths 1..2:
the generator yields exactly count_combinations = 6 candidates. -/
theorem C8_witness :
    (generate_bruteforce "ab".toList 2 1).length = count_combinations "ab".toList 2 1 :=
  (C8_theorem.2.2 "ab".toList 2 1 (by decide)).1

/-- C9 (counterexample): the 16-character bound does NOT hold for every
generator: a mask of 17 literal characters, a brute-force run with
max_len = 17, and a 17-character hybrid word each yield a candidate of
length 17. -/
theorem C9_counterexample :
    (List.replicate 17 'a' ∈ generate_mask_candidates (List.replicate 17 'a')) ∧
    (List.replicate 17 'a' ∈ generate_bruteforce ['a'] 17 17) ∧
    (List.replicate 17 'a' ∈ generate_hybrid [List.replicate 17 'a'] 1) ∧
    16 < (List.replicate 17 'a').length := by
  refine ⟨by decide, by decide, by decide, by decide⟩

/-- C9 (amended): the 16-character cap holds for the rule-mutated generator
(every `apply_rules` yield) and for the suffixed candidates of the hybrid
generator (a hybrid yield is a bare wordlist word or has length at most 16);
mask expansion and pure brute force impose no length cap. -/
theorem C9_theorem :
    (∀ word, ∀ s ∈ apply_rules word, s.length ≤ 16) ∧
    (∀ (words : List (List Char)) (N : Nat), ∀ s ∈ generate_hybrid words N,
      s ∈ words ∨ s.length ≤ 16) := by
  refine ⟨apply_rules_length_le, ?_⟩
  intro words N s hs
  rw [generate_hybrid, List.mem_flatMap] at hs
  obtain ⟨word, hw, hs⟩ := hs
  rcases List.mem_cons.mp hs with rfl | hs
  · exact Or.inl hw
  · right
    rw [List.mem_flatMap] at hs
    obtain ⟨len, _, hs⟩ := hs
    have hmem := List.mem_filter.mp hs
    simpa using hmem.2

/-- C9 (witness): the hybrid bound applied to the suffixed candidate "x1" of
generate_hybrid(["x"], 1). -/
theorem C9_witness :
    ("x1".toList ∈ (["x".toList] : List (List Char)) ∨ ("x1".toList).length ≤ 16) :=
  C9_theorem.2 ["x".toList] 1 "x1".toList (by decide)

/-- C10: the fast oracle always returns exactly 8 characters, each a lowercase
hex digit; consequently `check_password_batch` can return a candidate only
when the target is itself an 8-character lowercase-hex string. -/
theorem C10_theorem :
    (∀ (p : List Char) (s : List Nat),
      (compute_auth_fast p s).length = 8 ∧ ∀ c ∈ compute_auth_fast p s, c ∈ hexDigits) ∧
    (∀ (ps : List (List Char)) (t : List Char) (s : List Nat) (p : List Char),
      check_password_batch ps t s = some p →
      t.length = 8 ∧ ∀ c ∈ t, c ∈ hexDigits) := by
  refine ⟨compute_auth_fast_shape, ?_⟩
  intro ps t s p h
  rw [check_password_batch_eq ps t s p h]
  exact compute_auth_fast_shape p s

/-- C10 (witness): the batch check on password "a" with empty salt and target
"151a90bc" succeeds, and the theorem yields that this target is 8 lowercase
hex characters. -/
theorem C10_witness :
    ("151a90bc".toList).length = 8 ∧ ∀ c ∈ "151a90bc".toList, c ∈ hexDigits :=
  C10_theorem.2 ["a".toList] "151a90bc".toList [] "a".toList (by decide)
